import Mathlib

/-!
Verification of the test-generation pipeline in `testgen.py` (model-based test
case generation for the WiredTiger API from a TLA+ state graph).

The development shallowly embeds the pure computational core of the source:

* the covering-path selection of `compute_path_coverings` (sorting the
  root-to-node shortest-path table and greedily picking paths);
* the action translator `make_wt_action`;
* the graph loader `parse_json_state_graph`;
* the trace construction of the `__main__` block;
* the per-trace truncation of `gen_wt_test_from_traces`.

External library calls (networkx's `minimum_spanning_arborescence`,
`topological_sort` and `single_source_shortest_path`) are not part of the
repository's source; where a theorem depends on their output the output is
either a parameter constrained by hypotheses that state the library's
documented contract, or a definition whose doc string marks it as modelled
from the spec.  Python dicts are modelled as association lists whose insert
prepends (so `List.lookup`, which returns the first match, implements the
dict's last-write-wins semantics); machine integers are `Int`/`Nat`; the
float `cvg_pct` is modelled as `ℚ`; Python exceptions are `Except String`.
-/

namespace Testgen

/-! ### Stable sorting, embedding Python `sorted`

`sorted(keys, key=f, reverse=True)` (testgen.py line 100) is a stable sort
placing elements of larger key first.  We embed it as an insertion sort with a
boolean comparator `le`, where `le a b = true` means `a` may be placed before
`b`; stability holds because an element is inserted before the first element
it compares `le`-true against. -/

/-- Insert `a` into `l` before the first element `b` with `le a b = true`. -/
def insert_by {α : Type} (le : α → α → Bool) (a : α) : List α → List α
  | [] => [a]
  | b :: l => if le a b then a :: b :: l else b :: insert_by le a l

/-- Stable insertion sort by the comparator `le`. -/
def sort_by {α : Type} (le : α → α → Bool) : List α → List α
  | [] => []
  | a :: l => insert_by le a (sort_by le l)

theorem insert_by_perm {α : Type} (le : α → α → Bool) (a : α) (l : List α) :
    (insert_by le a l).Perm (a :: l) := by
  induction l with
  | nil => exact List.Perm.refl _
  | cons b l ih =>
    by_cases h : le a b
    · simp [insert_by, h]
    · simp only [insert_by, h, if_neg, Bool.false_eq_true, not_false_iff]
      exact (ih.cons b).trans (List.Perm.swap a b l)

theorem sort_by_perm {α : Type} (le : α → α → Bool) (l : List α) :
    (sort_by le l).Perm l := by
  induction l with
  | nil => exact List.Perm.refl _
  | cons a l ih => exact (insert_by_perm le a (sort_by le l)).trans (ih.cons a)

theorem mem_insert_by {α : Type} (le : α → α → Bool) (a x : α) (l : List α) :
    x ∈ insert_by le a l ↔ x = a ∨ x ∈ l := by
  rw [(insert_by_perm le a l).mem_iff, List.mem_cons]

theorem pairwise_insert_by {α : Type} {le : α → α → Bool}
    (total : ∀ a b, le a b || le b a)
    (htrans : ∀ a b c, le a b = true → le b c = true → le a c = true)
    (a : α) (l : List α) (hl : l.Pairwise (fun x y => le x y = true)) :
    (insert_by le a l).Pairwise (fun x y => le x y = true) := by
  induction l with
  | nil => simp [insert_by]
  | cons b l ih =>
    rcases List.pairwise_cons.mp hl with ⟨hb, hl2⟩
    by_cases h : le a b
    · simp only [insert_by, h, if_pos]
      refine List.pairwise_cons.mpr ⟨?_, hl⟩
      intro y hy
      rcases List.mem_cons.mp hy with rfl | hy2
      · exact h
      · exact htrans a b y h (hb y hy2)
    · simp only [insert_by, h, Bool.false_eq_true, if_neg, not_false_iff]
      refine List.pairwise_cons.mpr ⟨?_, ih hl2⟩
      intro y hy
      rcases (mem_insert_by le a y l).mp hy with rfl | hy2
      · have htot := total y b
        rcases Bool.or_eq_true_iff.mp htot with h1 | h2
        · exact absurd h1 h
        · exact h2
      · exact hb y hy2

theorem pairwise_sort_by {α : Type} {le : α → α → Bool}
    (total : ∀ a b, le a b || le b a)
    (htrans : ∀ a b c, le a b = true → le b c = true → le a c = true)
    (l : List α) : (sort_by le l).Pairwise (fun x y => le x y = true) := by
  induction l with
  | nil => simp [sort_by]
  | cons a l ih => exact pairwise_insert_by total htrans a (sort_by le l) ih

/-! ### The covering-path selection of `compute_path_coverings`

Source (testgen.py lines 81-151).  The function first calls
`nx.minimum_spanning_arborescence` and `nx.single_source_shortest_path`;
both are external library calls, so the embedding takes the resulting
shortest-path table `spaths` (a dict from node fingerprint to the unique tree
path from the root to that node) as a parameter.  From line 100 on the code is
embedded literally. -/

/-- Dict access `spaths[x]` (lines 100 and 111).  The table is an association
list with unique keys; a missing key, impossible for keys drawn from
`spaths.keys()`, defaults to `[]`. -/
def path_of (spaths : List (Nat × List Nat)) (x : Nat) : List Nat :=
  (spaths.lookup x).getD []

/-- The sort key of line 100: `(len(spaths[x]), hash(tuple(spaths[x])))`.
Python's `hash` on a tuple of ints is deterministic; it is modelled by the
function parameter `h`. -/
def path_key (h : List Nat → Int) (spaths : List (Nat × List Nat)) (x : Nat) :
    Nat × Int :=
  ((path_of spaths x).length, h (path_of spaths x))

/-- Lexicographic order on sort keys, as Python compares key tuples. -/
def key_le_bool (k1 k2 : Nat × Int) : Bool :=
  k1.1 < k2.1 || (k1.1 == k2.1 && k1.2 ≤ k2.2)

/-- The comparator realised by `sorted(..., key=..., reverse=True)` of line
100: `a` may come before `b` iff the key of `b` is at most the key of `a`. -/
def sort_le (h : List Nat → Int) (spaths : List (Nat × List Nat)) (a b : Nat) :
    Bool :=
  key_le_bool (path_key h spaths b) (path_key h spaths a)

/-- `spath_keys_sorted` of testgen.py line 100. -/
def spath_keys_sorted (h : List Nat → Int) (spaths : List (Nat × List Nat)) :
    List Nat :=
  sort_by (sort_le h spaths) (spaths.map Prod.fst)

/-- The greedy selection loop of testgen.py lines 106-129, recursing over the
sorted key list with the running set `uncovered` (the source's
`uncovered_target_nodes`).  Per iteration: `new_covered` is
`uncovered_target_nodes.intersection(spaths[p])` (line 111); an empty
intersection skips the path (line 112); otherwise the path is accepted, and
line 121's division `num_target_nodes_covered / len(target_nodes_to_cover)`
raises `ZeroDivisionError` when the target set is empty; the loop breaks once
`num_target_nodes_covered >= cvg_pct * len(target_nodes_to_cover)` (line 128).
The source also tracks `all_covered_nodes`, used only for printing, which is
dropped here. -/
def greedy_cover (spaths : List (Nat × List Nat)) (targets : Finset Nat)
    (cvg : ℚ) : List Nat → Finset Nat → Except String (List (List Nat))
  | [], _ => .ok []
  | p :: rest, uncovered =>
    let path := path_of spaths p
    let new_covered := uncovered.filter (fun t => t ∈ path)
    if new_covered = (∅ : Finset Nat) then
      greedy_cover spaths targets cvg rest uncovered
    else
      let uncovered2 := uncovered \ new_covered
      if targets.card = 0 then
        .error "ZeroDivisionError: division by zero"
      else
        let num_covered : Int := (targets.card : Int) - (uncovered2.card : Int)
        if cvg * (targets.card : ℚ) ≤ (num_covered : ℚ) then
          .ok [path]
        else
          match greedy_cover spaths targets cvg rest uncovered2 with
          | .ok tail => .ok (path :: tail)
          | .error e => .error e

/-- `compute_path_coverings` from the sorted-key step on (testgen.py lines
100-151), given the externally computed shortest-path table. -/
def compute_path_coverings (h : List Nat → Int)
    (spaths : List (Nat × List Nat)) (targets : Finset Nat) (cvg : ℚ) :
    Except String (List (List Nat)) :=
  greedy_cover spaths targets cvg (spath_keys_sorted h spaths) targets

/-- Union of the node sets of a list of paths. -/
def nodes_union (l : List (List Nat)) : Finset Nat :=
  l.foldr (fun p s => p.toFinset ∪ s) ∅

/-! ### Claim C3: candidate order -/

/-- The descending-key relation of line 100 as a proposition: `a` precedes `b`
only if `b`'s path is shorter, or of equal length with a hash at most that of
`a`'s path. -/
def key_ge_prop (h : List Nat → Int) (spaths : List (Nat × List Nat))
    (a b : Nat) : Prop :=
  (path_of spaths b).length < (path_of spaths a).length ∨
    ((path_of spaths b).length = (path_of spaths a).length ∧
      h (path_of spaths b) ≤ h (path_of spaths a))

theorem sort_le_iff (h : List Nat → Int) (spaths : List (Nat × List Nat))
    (a b : Nat) : sort_le h spaths a b = true ↔ key_ge_prop h spaths a b := by
  simp [sort_le, key_le_bool, key_ge_prop, path_key, Bool.or_eq_true_iff,
    Bool.and_eq_true_iff, decide_eq_true_eq, beq_iff_eq]

theorem sort_le_total (h : List Nat → Int) (spaths : List (Nat × List Nat)) :
    ∀ a b, sort_le h spaths a b || sort_le h spaths b a := by
  intro a b
  rw [Bool.or_eq_true_iff, sort_le_iff, sort_le_iff]
  unfold key_ge_prop
  omega

theorem sort_le_trans (h : List Nat → Int) (spaths : List (Nat × List Nat)) :
    ∀ a b c, sort_le h spaths a b = true → sort_le h spaths b c = true →
      sort_le h spaths a c = true := by
  intro a b c hab hbc
  rw [sort_le_iff] at hab hbc ⊢
  unfold key_ge_prop at hab hbc ⊢
  omega

/-- Claim C3: the candidate root-to-node paths are considered in descending
order of path length, ties broken by the deterministic hash `h` of the path's
node sequence, also descending: the key list sorted at testgen.py line 100 is
a permutation of the table's keys and is pairwise ordered by the
descending-length / descending-hash relation. -/
theorem c3_candidate_order (h : List Nat → Int)
    (spaths : List (Nat × List Nat)) :
    (spath_keys_sorted h spaths).Perm (spaths.map Prod.fst) ∧
      (spath_keys_sorted h spaths).Pairwise (key_ge_prop h spaths) := by
  constructor
  · exact sort_by_perm _ _
  · refine List.Pairwise.imp ?_
      (pairwise_sort_by (sort_le_total h spaths) (sort_le_trans h spaths)
        (spaths.map Prod.fst))
    intro a b hab
    exact (sort_le_iff h spaths a b).mp hab

/-! ### Claim C8: empty target set -/

/-- Claim C8: with an empty target set the path coverer returns an empty
covering-path list and raises no error; in particular the
`ZeroDivisionError` branch (the division at testgen.py line 121) is never
reached because every path's freshly-covered set is empty and is skipped at
line 112. -/
theorem c8_empty_targets (h : List Nat → Int)
    (spaths : List (Nat × List Nat)) (cvg : ℚ) :
    compute_path_coverings h spaths (∅ : Finset Nat) cvg = .ok [] := by
  unfold compute_path_coverings
  generalize spath_keys_sorted h spaths = ks
  induction ks with
  | nil => rfl
  | cons p rest ih =>
    rw [greedy_cover]
    simp only [Finset.filter_empty, if_pos]
    exact ih

/-! ### Claim C1: coverage with `coveragePct = 1.0` -/

theorem break_iff_one (tc u2 : Nat) :
    ((1 : ℚ) * (tc : ℚ) ≤ ((((tc : Int) - (u2 : Int)) : Int) : ℚ)) ↔ u2 = 0 := by
  rw [one_mul]
  push_cast
  constructor
  · intro hle
    have h0 : (u2 : ℚ) ≤ 0 := by linarith
    exact_mod_cast Nat.le_zero.mp (by exact_mod_cast h0)
  · intro h0
    subst h0
    simp

/-- With `cvg_pct = 1.0`, if every still-uncovered target occurs on the path
of some remaining key, the loop terminates without error and the accepted
paths cover every such target. -/
theorem greedy_cover_covers (spaths : List (Nat × List Nat))
    (targets : Finset Nat) :
    ∀ (ks : List Nat) (uncovered : Finset Nat),
      uncovered ⊆ targets →
      (∀ t ∈ uncovered, ∃ k ∈ ks, t ∈ path_of spaths k) →
      ∃ l, greedy_cover spaths targets 1 ks uncovered = .ok l ∧
        ∀ t ∈ uncovered, ∃ p ∈ l, t ∈ p := by
  intro ks
  induction ks with
  | nil =>
    intro uncovered hsub hwit
    refine ⟨[], rfl, ?_⟩
    intro t ht
    rcases hwit t ht with ⟨k, hk, _⟩
    exact absurd hk (List.not_mem_nil k)
  | cons p rest ih =>
    intro uncovered hsub hwit
    by_cases hempty :
        uncovered.filter (fun t => t ∈ path_of spaths p) = (∅ : Finset Nat)
    · have hwit2 : ∀ t ∈ uncovered, ∃ k ∈ rest, t ∈ path_of spaths k := by
        intro t ht
        rcases hwit t ht with ⟨k, hk, hpath⟩
        rcases List.mem_cons.mp hk with heq | hk2
        · exfalso
          subst heq
          have hmem : t ∈ uncovered.filter (fun t => t ∈ path_of spaths k) :=
            Finset.mem_filter.mpr ⟨ht, hpath⟩
          rw [hempty] at hmem
          exact absurd hmem (Finset.not_mem_empty t)
        · exact ⟨k, hk2, hpath⟩
      obtain ⟨l, hok, hcov⟩ := ih uncovered hsub hwit2
      refine ⟨l, ?_, hcov⟩
      rw [greedy_cover]
      simp only [hempty, if_pos]
      exact hok
    · obtain ⟨t0, ht0⟩ := Finset.nonempty_iff_ne_empty.mpr hempty
      have ht0u : t0 ∈ uncovered := (Finset.mem_filter.mp ht0).1
      have hcard : ¬ targets.card = 0 := by
        intro hc
        rw [Finset.card_eq_zero.mp hc] at hsub
        exact absurd (hsub ht0u) (Finset.not_mem_empty t0)
      by_cases hbr :
          (uncovered \ uncovered.filter (fun t => t ∈ path_of spaths p)).card
            = 0
      · refine ⟨[path_of spaths p], ?_, ?_⟩
        · rw [greedy_cover]
          simp only [hempty, hcard, if_neg, not_false_iff, ite_false,
            (break_iff_one targets.card _).mpr hbr, if_pos, ite_true]
        · intro t ht
          refine ⟨path_of spaths p, List.mem_singleton.mpr rfl, ?_⟩
          by_contra hnp
          have hmem : t ∈
              uncovered \ uncovered.filter (fun t => t ∈ path_of spaths p) := by
            rw [Finset.mem_sdiff, Finset.mem_filter]
            exact ⟨ht, fun hmem2 => hnp hmem2.2⟩
          rw [Finset.card_eq_zero.mp hbr] at hmem
          exact absurd hmem (Finset.not_mem_empty t)
      · have hsub2 :
            (uncovered \ uncovered.filter (fun t => t ∈ path_of spaths p))
              ⊆ targets :=
          fun t ht => hsub (Finset.mem_sdiff.mp ht).1
        have hwit2 : ∀ t ∈
            uncovered \ uncovered.filter (fun t => t ∈ path_of spaths p),
            ∃ k ∈ rest, t ∈ path_of spaths k := by
          intro t ht
          rcases Finset.mem_sdiff.mp ht with ⟨htu, htnf⟩
          rcases hwit t htu with ⟨k, hk, hpath⟩
          rcases List.mem_cons.mp hk with heq | hk2
          · exfalso
            subst heq
            exact htnf (Finset.mem_filter.mpr ⟨htu, hpath⟩)
          · exact ⟨k, hk2, hpath⟩
        obtain ⟨tail, hok, hcov⟩ := ih _ hsub2 hwit2
        have hnle : ¬ ((1 : ℚ) * (targets.card : ℚ) ≤
            ((((targets.card : Int) -
              (((uncovered \ uncovered.filter
                (fun t => t ∈ path_of spaths p)).card : Int))) : Int) : ℚ)) :=
          fun hc => hbr ((break_iff_one _ _).mp hc)
        refine ⟨path_of spaths p :: tail, ?_, ?_⟩
        · rw [greedy_cover]
          simp only [hempty, hcard, hnle, if_neg, not_false_iff, ite_false]
          rw [hok]
        · intro t ht
          by_cases hp : t ∈ path_of spaths p
          · exact ⟨path_of spaths p, List.mem_cons_self _ _, hp⟩
          · have hmem : t ∈
                uncovered \ uncovered.filter (fun t => t ∈ path_of spaths p) := by
              rw [Finset.mem_sdiff, Finset.mem_filter]
              exact ⟨ht, fun hmem2 => hp hmem2.2⟩
            rcases hcov t hmem with ⟨q, hq, htq⟩
            exact ⟨q, List.mem_cons_of_mem _ hq, htq⟩

theorem lookup_eq_of_mem_of_nodup {β : Type} :
    ∀ (l : List (Nat × β)) (t : Nat) (b : β),
      (l.map Prod.fst).Nodup → (t, b) ∈ l → l.lookup t = some b := by
  intro l
  induction l with
  | nil =>
    intro t b _ hmem
    exact absurd hmem (List.not_mem_nil _)
  | cons hd tl ih =>
    intro t b hnd hmem
    rw [List.map_cons, List.nodup_cons] at hnd
    rcases List.mem_cons.mp hmem with heq | hmem2
    · subst heq
      simp [List.lookup]
    · have hne : t ≠ hd.1 := by
        intro hteq
        exact hnd.1 (hteq ▸ List.mem_map.mpr ⟨(t, b), hmem2, rfl⟩)
      have hbeq : (t == hd.1) = false := beq_eq_false_iff_ne.mpr hne
      obtain ⟨k, v⟩ := hd
      simp only [List.lookup, hbeq]
      exact ih t b hnd.2 hmem2

/-- Claim C1 (amended): with `coveragePct = 1.0`, when every target node is
reachable from the root — i.e. the shortest-path table has an entry for each
target, whose path ends at (hence contains) that target — the routine
succeeds and every target node lies on some returned covering path, so the
union of the path node sets CONTAINS the target set.  Equality does not hold
in general: the paths start at the root and may pass through non-target
nodes, see `c1_counterexample`. -/
theorem c1_full_coverage (h : List Nat → Int)
    (spaths : List (Nat × List Nat)) (targets : Finset Nat)
    (hnd : (spaths.map Prod.fst).Nodup)
    (hreach : ∀ t ∈ targets, ∃ pth, (t, pth) ∈ spaths ∧ t ∈ pth) :
    ∃ l, compute_path_coverings h spaths targets 1 = .ok l ∧
      targets ⊆ nodes_union l := by
  have hwit : ∀ t ∈ targets, ∃ k ∈ spath_keys_sorted h spaths,
      t ∈ path_of spaths k := by
    intro t ht
    rcases hreach t ht with ⟨pth, hmem, htpth⟩
    have hlk : spaths.lookup t = some pth :=
      lookup_eq_of_mem_of_nodup spaths t pth hnd hmem
    have hkey : t ∈ spath_keys_sorted h spaths := by
      unfold spath_keys_sorted
      rw [(sort_by_perm _ _).mem_iff]
      exact List.mem_map.mpr ⟨(t, pth), hmem, rfl⟩
    refine ⟨t, hkey, ?_⟩
    rw [path_of, hlk]
    exact htpth
  obtain ⟨l, hok, hcov⟩ :=
    greedy_cover_covers spaths targets (spath_keys_sorted h spaths) targets
      (fun _ ht => ht) hwit
  refine ⟨l, hok, ?_⟩
  intro t ht
  rcases hcov t ht with ⟨p, hp, htp⟩
  clear hok hcov
  induction l with
  | nil => exact absurd hp (List.not_mem_nil p)
  | cons q l2 ih2 =>
    rcases List.mem_cons.mp hp with heq | hp2
    · subst heq
      exact Finset.mem_union_left _ (List.mem_toFinset.mpr htp)
    · exact Finset.mem_union_right _ (ih2 hp2)

/-- A deterministic stand-in for Python's tuple hash: the tie-break is
irrelevant on the concrete inputs below because all path lengths differ. -/
def h_zero : List Nat → Int := fun _ => 0

/-- Shortest-path table of the one-edge tree `0 → 1`: the path to the root is
`[0]` and the path to node `1` is `[0, 1]`. -/
def spaths_ex : List (Nat × List Nat) := [(0, [0]), (1, [0, 1])]

/-- Claim C1 counterexample: on the tree `0 → 1` with target set `{1}` (every
target reachable from the root) and `coveragePct = 1.0`, the returned
covering list is `[[0, 1]]`, whose node union `{0, 1}` is a strict superset
of, and not equal to, the target set `{1}`: the claimed equality fails. -/
theorem c1_counterexample :
    compute_path_coverings h_zero spaths_ex {1} 1 = .ok [[0, 1]] ∧
      nodes_union [[0, 1]] ≠ ({1} : Finset Nat) := by
  constructor
  · have hsort : spath_keys_sorted h_zero spaths_ex = [1, 0] := by decide
    unfold compute_path_coverings
    rw [hsort]
    rw [greedy_cover]
    have hc1 : ¬ (Finset.filter (fun t => t ∈ path_of spaths_ex 1)
        ({1} : Finset Nat) = (∅ : Finset Nat)) := by decide
    have hc2 : ¬ (({1} : Finset Nat).card = 0) := by decide
    have hc3 := (break_iff_one ({1} : Finset Nat).card
      (({1} : Finset Nat) \ Finset.filter (fun t => t ∈ path_of spaths_ex 1)
        ({1} : Finset Nat)).card).mpr (by decide)
    simp only [hc1, hc2, hc3, if_neg, if_pos, not_false_iff, ite_false,
      ite_true]
    rfl
  · decide

/-- Witness for `c1_full_coverage` at the concrete table `spaths_ex` with
target set `{1}`. -/
theorem c1_full_coverage_witness :
    ∃ l, compute_path_coverings h_zero spaths_ex {1} 1 = .ok l ∧
      ({1} : Finset Nat) ⊆ nodes_union l := by
  refine c1_full_coverage h_zero spaths_ex {1} (by decide) ?_
  intro t ht
  have ht1 : t = 1 := by
    simpa using ht
  subst ht1
  exact ⟨[0, 1], by decide, by decide⟩

/-! ### Claim C4: greedy acceptance and stopping rule -/

theorem nodes_union_nil : nodes_union [] = (∅ : Finset Nat) := rfl

theorem nodes_union_cons (p : List Nat) (l : List (List Nat)) :
    nodes_union (p :: l) = p.toFinset ∪ nodes_union l := rfl

/-- Loop invariant of the greedy selection (testgen.py lines 109-129): every
accepted path covers a target that was uncovered when it was accepted, and
the loop never continues past the break threshold of line 128. -/
theorem greedy_cover_greedy (spaths : List (Nat × List Nat))
    (targets : Finset Nat) (cvg : ℚ) :
    ∀ (ks : List Nat) (u : Finset Nat) (l : List (List Nat)),
      greedy_cover spaths targets cvg ks u = .ok l →
      ((∀ i (hi : i < l.length), ∃ t ∈ u, t ∈ l.get ⟨i, hi⟩ ∧
          ∀ j (hj : j < i), t ∉ l.get ⟨j, hj.trans hi⟩) ∧
        (∀ i, i + 1 < l.length →
          ¬ (cvg * (targets.card : ℚ) ≤
            ((((targets.card : Int) -
              (((u \ nodes_union (l.take (i + 1))).card : Int))) : Int) : ℚ)))) := by
  intro ks
  induction ks with
  | nil =>
    intro u l hok
    rw [greedy_cover] at hok
    cases hok
    exact ⟨fun i hi => absurd hi (by simp), fun i hip => absurd hip (by simp)⟩
  | cons p rest ih =>
    intro u l hok
    rw [greedy_cover] at hok
    by_cases hempty :
        u.filter (fun t => t ∈ path_of spaths p) = (∅ : Finset Nat)
    · simp only [hempty, if_pos, ite_true] at hok
      exact ih u l hok
    · obtain ⟨t0, ht0⟩ := Finset.nonempty_iff_ne_empty.mpr hempty
      have ht0u : t0 ∈ u := (Finset.mem_filter.mp ht0).1
      have ht0p : t0 ∈ path_of spaths p := (Finset.mem_filter.mp ht0).2
      by_cases hcard : targets.card = 0
      · simp only [hempty, hcard, if_neg, not_false_iff, ite_false, if_pos,
          ite_true] at hok
        cases hok
      · by_cases hbr : cvg * (targets.card : ℚ) ≤
            ((((targets.card : Int) -
              (((u \ u.filter (fun t => t ∈ path_of spaths p)).card
                : Int))) : Int) : ℚ)
        · simp only [hempty, hcard, hbr, if_neg, not_false_iff, ite_false,
            if_pos, ite_true] at hok
          cases hok
          constructor
          · intro i hi
            cases i with
            | zero =>
              exact ⟨t0, ht0u, ht0p, fun j hj => absurd hj (Nat.not_lt_zero j)⟩
            | succ n =>
              exact absurd hi (by simp)
          · intro i hip
            exact absurd hip (by simp)
        · simp only [hempty, hcard, hbr, if_neg, not_false_iff,
            ite_false] at hok
          cases hrec : greedy_cover spaths targets cvg rest
              (u \ u.filter (fun t => t ∈ path_of spaths p)) with
          | error e =>
            rw [hrec] at hok
            cases hok
          | ok tail =>
            rw [hrec] at hok
            cases hok
            obtain ⟨ihA, ihB⟩ := ih _ tail hrec
            constructor
            · intro i hi
              cases i with
              | zero =>
                exact ⟨t0, ht0u, ht0p,
                  fun j hj => absurd hj (Nat.not_lt_zero j)⟩
              | succ n =>
                have hn : n < tail.length := by simpa using hi
                obtain ⟨t, htu2, htget, hprev⟩ := ihA n hn
                rcases Finset.mem_sdiff.mp htu2 with ⟨htu, htnf⟩
                refine ⟨t, htu, ?_, ?_⟩
                · simpa using htget
                · intro j hj
                  cases j with
                  | zero =>
                    intro htp
                    exact htnf (Finset.mem_filter.mpr ⟨htu, by simpa using htp⟩)
                  | succ m =>
                    have hm : m < n := Nat.lt_of_succ_lt_succ hj
                    intro htp
                    exact hprev m hm (by simpa using htp)
            · intro i hip
              cases i with
              | zero =>
                intro hle
                apply hbr
                have hset : u \
                    nodes_union ((path_of spaths p :: tail).take (0 + 1)) =
                    u \ u.filter (fun t => t ∈ path_of spaths p) := by
                  ext x
                  simp only [List.take_succ_cons, List.take_zero,
                    nodes_union_cons, nodes_union_nil, Finset.union_empty,
                    Finset.mem_sdiff, Finset.mem_filter, List.mem_toFinset]
                  tauto
                rw [hset] at hle
                exact hle
              | succ n =>
                have hn : n + 1 < tail.length := by simpa using hip
                intro hle
                apply ihB n hn
                have hset : u \
                    nodes_union ((path_of spaths p :: tail).take (n + 1 + 1)) =
                    (u \ u.filter (fun t => t ∈ path_of spaths p)) \
                      nodes_union (tail.take (n + 1)) := by
                  ext x
                  simp only [List.take_succ_cons, nodes_union_cons,
                    Finset.mem_sdiff, Finset.mem_union, Finset.mem_filter,
                    List.mem_toFinset]
                  tauto
                rw [hset] at hle
                exact hle

/-- Claim C4: every path accepted into the returned covering list covers at
least one target node not covered by any earlier accepted path (paths
covering no new target are skipped, so they never appear), and the loop
never continues past the point where the covered count reaches
`cvg_pct * len(target_nodes_to_cover)`: before every accepted path except
possibly the last one, the break condition of testgen.py line 128 was still
false. -/
theorem c4_greedy_selection (h : List Nat → Int)
    (spaths : List (Nat × List Nat)) (targets : Finset Nat) (cvg : ℚ)
    (l : List (List Nat))
    (hok : compute_path_coverings h spaths targets cvg = .ok l) :
    (∀ i (hi : i < l.length), ∃ t ∈ targets, t ∈ l.get ⟨i, hi⟩ ∧
        ∀ j (hj : j < i), t ∉ l.get ⟨j, hj.trans hi⟩) ∧
      (∀ i, i + 1 < l.length →
        ¬ (cvg * (targets.card : ℚ) ≤
          ((((targets.card : Int) -
            (((targets \ nodes_union (l.take (i + 1))).card : Int))) : Int)
              : ℚ))) :=
  greedy_cover_greedy spaths targets cvg (spath_keys_sorted h spaths) targets
    l hok

/-- Shortest-path table of the single-node tree `7`. -/
def spaths_w : List (Nat × List Nat) := [(7, [7])]

/-- Witness for `c4_greedy_selection` on the single-node tree with target set
`{7}`. -/
theorem c4_greedy_selection_witness :
    (∀ i (hi : i < ([[7]] : List (List Nat)).length),
        ∃ t ∈ ({7} : Finset Nat), t ∈ ([[7]] : List (List Nat)).get ⟨i, hi⟩ ∧
          ∀ j (hj : j < i), t ∉ ([[7]] : List (List Nat)).get ⟨j, hj.trans hi⟩) ∧
      (∀ i, i + 1 < ([[7]] : List (List Nat)).length →
        ¬ ((1 : ℚ) * ((({7} : Finset Nat).card : Nat) : ℚ) ≤
          (((((({7} : Finset Nat).card : Nat) : Int) -
            (((({7} : Finset Nat) \
              nodes_union (([[7]] : List (List Nat)).take (i + 1))).card
                : Int))) : Int) : ℚ))) := by
  refine c4_greedy_selection h_zero spaths_w {7} 1 [[7]] ?_
  have hsort : spath_keys_sorted h_zero spaths_w = [7] := by decide
  unfold compute_path_coverings
  rw [hsort, greedy_cover]
  have hc1 : ¬ (Finset.filter (fun t => t ∈ path_of spaths_w 7)
      ({7} : Finset Nat) = (∅ : Finset Nat)) := by decide
  have hc2 : ¬ (({7} : Finset Nat).card = 0) := by decide
  have hc3 := (break_iff_one ({7} : Finset Nat).card
    (({7} : Finset Nat) \ Finset.filter (fun t => t ∈ path_of spaths_w 7)
      ({7} : Finset Nat)).card).mpr (by decide)
  simp only [hc1, hc2, hc3, if_neg, if_pos, not_false_iff, ite_false,
    ite_true]
  rfl

/-! ### The action translator `make_wt_action`

Source (testgen.py lines 154-262).  The translator is a pure function from an
action name, its argument dict and the post-state to a list of emitted test
statements.  Statements are embedded structurally: each Python f-string line
becomes a `Stmt` constructor carrying exactly the values the f-string
interpolates.  String helpers `str.lower` and `str.replace` are embedded
character-structurally so that they evaluate inside the kernel. -/

/-- Python `str.lower` on a single ASCII character. -/
def py_lower_char (c : Char) : Char :=
  if 65 ≤ c.toNat ∧ c.toNat ≤ 90 then Char.ofNat (c.toNat + 32) else c

/-- Python `str.lower` (the source only lowercases ASCII action names). -/
def py_lower (s : String) : String := ⟨s.data.map py_lower_char⟩

/-- Python `str.replace` on character lists, fuel-recursive: replaces each
non-overlapping occurrence of `pat` left to right.  The source never calls
`replace` with an empty pattern, which this embedding treats as the
identity. -/
def py_replace_list (pat rep : List Char) : Nat → List Char → List Char
  | _, [] => []
  | 0, l => l
  | fuel + 1, c :: cs =>
    if pat ≠ [] ∧ pat.isPrefixOf (c :: cs) then
      rep ++ py_replace_list pat rep fuel ((c :: cs).drop pat.length)
    else
      c :: py_replace_list pat rep fuel cs

/-- Python `s.replace(pat, rep)`. -/
def py_replace (s pat rep : String) : String :=
  ⟨py_replace_list pat.data rep.data s.data.length s.data⟩

/-- The expected-result code `err_code` of testgen.py lines 157-163: Python
`None` when the action has no `tid` argument, the int `0` before the
post-state is consulted, or the transaction-status string from the
post-state. -/
inductive ECode where
  | pynone
  | zero
  | status (s : String)
deriving DecidableEq

/-- The post-state fields read by `make_wt_action`
(`post_state[1]["txnStatus"]["n"][tid]` at line 163 and
`["allDurableTs"]["n"]`, `["stableTs"]["n"]`, `["oldestTs"]["n"]` at lines
252-254).  The model has the single storage node `"n"`, so the `["n"]`
projection is folded into each field. -/
structure PState where
  txnStatus : String → String
  allDurableTs : Int
  stableTs : Int
  oldestTs : Int

/-- The concrete API call `wt_action_name` of testgen.py lines 164-201, one
constructor per assignment; each carries the values the corresponding
f-string interpolates.  `readCall` carries the expected value `v` because the
source appends a not-found assertion when `v == "NoValue"` and a
value-equality assertion otherwise (lines 179-182). -/
inductive ActionCall where
  | generic (name : String)
  | beginTxn (session ignorePrepare readTs tid : String)
  | writeCall (tid k v : String)
  | readCall (tid k v : String)
  | removeCall (tid k : String)
  | prepareCall (session prepareTs : String)
  | commitCall (session commitTs : String)
  | commitPreparedCall (session commitTs durableTs : String)
  | abortCall (session : String)
  | setStableCall (ts : String)
  | setOldestCall (ts : String)
  | rollbackToStableCall
deriving DecidableEq

/-- One emitted test statement of `make_wt_action`: the try/except scaffold of
lines 204-210, the per-error-code assertions of lines 213-226, the compact
helper calls of lines 231-246, and the timestamp check of line 260.  The
final two constructors are the assertions produced by the template helper
`transaction_read` (see `expand_stmt`). -/
inductive Stmt where
  | resSretInit
  | tryLine
  | callLine (c : ActionCall)
  | exceptLine
  | resAssign
  | assertResNotNone
  | assertRollbackErr
  | assertSretNotFound
  | assertPrepareConflictErr
  | assertResNone
  | assertSretZero
  | beginTransaction (tid session readTs ignorePrepare : String)
      (resExpected : Option Nat) (errCode : ECode)
  | transactionWrite (tid k : String) (resExpected : Option Nat)
      (errCode : ECode)
  | transactionRead (tid k v : String) (resExpected : Option Nat)
      (errCode : ECode)
  | transactionRemove (tid k : String) (resExpected : Option Nat)
      (errCode : ECode)
  | commitTransaction (session tid commitTs : String)
      (resExpected : Option Nat) (errCode : ECode)
  | commitPreparedTransaction (session commitTs durableTs : String)
      (resExpected : Option Nat) (errCode : ECode)
  | prepareTransaction (session prepareTs : String)
      (resExpected : Option Nat) (errCode : ECode)
  | abortTransaction (session tid : String) (resExpected : Option Nat)
      (errCode : ECode)
  | checkTimestamps (allDurable : Int) (stableTs oldestTs : Option Int)
  | assertNotFoundResult (tid k : String)
  | assertValueEquals (tid k v : String)
deriving DecidableEq

/-- Dict access `action_args[key]`: the source indexes the dict directly and
only for keys the action kind guarantees, so a missing key (Python
`KeyError`, never reached on the guarded accesses) defaults to `""`. -/
def arg_get (args : List (String × String)) (key : String) : String :=
  (args.lookup key).getD ""

/-- The `wt_action_name` computation of testgen.py lines 164-201: a default
generic name (line 164, `action_name.lower().replace("mdbtxn",
"transaction_")`) overridden by one of eleven per-kind assignments; the
independent `if` statements of the source have mutually exclusive conditions
and are equivalent to this `if`/`else` chain. -/
def action_call (action_name : String) (action_args : List (String × String))
    (tid txn_session ignore_prepare : String) : ActionCall :=
  if action_name = "StartTransaction" then
    .beginTxn txn_session ignore_prepare (arg_get action_args "readTs") tid
  else if action_name = "TransactionWrite" then
    .writeCall tid (arg_get action_args "k") (arg_get action_args "v")
  else if action_name = "TransactionRead" then
    .readCall tid (arg_get action_args "k") (arg_get action_args "v")
  else if action_name = "TransactionRemove" then
    .removeCall tid (arg_get action_args "k")
  else if action_name = "PrepareTransaction" then
    .prepareCall txn_session (arg_get action_args "prepareTs")
  else if action_name = "CommitTransaction" then
    .commitCall txn_session (arg_get action_args "commitTs")
  else if action_name = "CommitPreparedTransaction" then
    .commitPreparedCall txn_session (arg_get action_args "commitTs")
      (arg_get action_args "durableTs")
  else if action_name = "AbortTransaction" then
    .abortCall txn_session
  else if action_name = "SetStableTimestamp" then
    .setStableCall (arg_get action_args "ts")
  else if action_name = "SetOldestTimestamp" then
    .setOldestCall (arg_get action_args "ts")
  else if action_name = "RollbackToStable" then
    .rollbackToStableCall
  else
    .generic (py_replace (py_lower action_name) "mdbtxn" "transaction_")

/-- The try/except scaffold of testgen.py lines 204-210. -/
def base_lines (call : ActionCall) : List Stmt :=
  [.resSretInit, .tryLine, .callLine call, .exceptLine, .resAssign]

/-- The per-error-code assertions of testgen.py lines 211-226. -/
def err_lines (action_name : String) (err_code : ECode) : List Stmt :=
  if err_code = .status "WT_ROLLBACK" then
    [.assertResNotNone, .assertRollbackErr]
  else if err_code = .status "WT_NOTFOUND" then
    [.assertSretNotFound]
  else if err_code = .status "WT_PREPARE_CONFLICT" then
    [.assertPrepareConflictErr]
  else
    .assertResNone ::
      (if action_name = "TransactionRemove" then [.assertSretZero] else [])

/-- `res_expected` (testgen.py lines 211-216): `1` in the `WT_ROLLBACK`
branch, Python `None` otherwise.  (`exception_str` is assigned at line 216
but never used and is omitted.) -/
def res_expected_of (err_code : ECode) : Option Nat :=
  if err_code = .status "WT_ROLLBACK" then some 1 else none

/-- The unconditional compact-output overrides of testgen.py lines 228-246:
for eight action kinds the whole `lines` list is replaced by a single helper
call; `none` means no override. -/
def compact_lines (action_name : String)
    (action_args : List (String × String))
    (tid txn_session ignore_prepare : String) (res_expected : Option Nat)
    (err_code : ECode) : Option (List Stmt) :=
  if action_name = "StartTransaction" then
    some [.beginTransaction tid txn_session (arg_get action_args "readTs")
      ignore_prepare res_expected err_code]
  else if action_name = "TransactionWrite" then
    some [.transactionWrite tid (arg_get action_args "k") res_expected
      err_code]
  else if action_name = "TransactionRead" then
    some [.transactionRead tid (arg_get action_args "k")
      (arg_get action_args "v") res_expected err_code]
  else if action_name = "TransactionRemove" then
    some [.transactionRemove tid (arg_get action_args "k") res_expected
      err_code]
  else if action_name = "CommitTransaction" then
    some [.commitTransaction txn_session tid (arg_get action_args "commitTs")
      res_expected err_code]
  else if action_name = "CommitPreparedTransaction" then
    some [.commitPreparedTransaction txn_session
      (arg_get action_args "commitTs") (arg_get action_args "durableTs")
      res_expected err_code]
  else if action_name = "PrepareTransaction" then
    some [.prepareTransaction txn_session (arg_get action_args "prepareTs")
      res_expected err_code]
  else if action_name = "AbortTransaction" then
    some [.abortTransaction txn_session tid res_expected err_code]
  else
    none

/-- The timestamp bookkeeping of testgen.py lines 248-260: negative stable and
oldest timestamps become Python `None`, and a `check_timestamps` statement is
appended when any of the three fields is non-default. -/
def ts_lines (ps : PState) : List Stmt :=
  let all_durable_ts := ps.allDurableTs
  let stable_ts : Option Int :=
    if ps.stableTs < 0 then none else some ps.stableTs
  let oldest_ts : Option Int :=
    if ps.oldestTs < 0 then none else some ps.oldestTs
  if stable_ts ≠ none ∨ all_durable_ts ≠ 0 ∨ oldest_ts ≠ none then
    [.checkTimestamps all_durable_ts stable_ts oldest_ts]
  else
    []

/-- `make_wt_action` (testgen.py lines 154-262).  The `pre_state` parameter is
accepted and never read, as in the source.  A Python-`None` post-state makes
the unconditional subscript at line 252 raise `TypeError`; with a real
post-state the translation always succeeds. -/
def make_wt_action (pre_state : Option (Nat × PState)) (action_name : String)
    (action_args : List (String × String))
    (post_state : Option (Nat × PState)) : Except String (List Stmt) :=
  match post_state with
  | none => .error "TypeError: NoneType is not subscriptable"
  | some ps =>
    let tid : String := arg_get action_args "tid"
    let err_code : ECode :=
      if (action_args.lookup "tid").isSome then .status (ps.2.txnStatus tid)
      else .pynone
    let txn_session : String := "sess_" ++ tid
    let ignore_prepare : String :=
      match action_args.lookup "ignorePrepare" with
      | some s => py_replace s "\"" ""
      | none => "false"
    let call := action_call action_name action_args tid txn_session
      ignore_prepare
    let lines := base_lines call ++ err_lines action_name err_code
    let res_expected := res_expected_of err_code
    let lines2 := (compact_lines action_name action_args tid txn_session
      ignore_prepare res_expected err_code).getD lines
    .ok (lines2 ++ ts_lines ps.2)

/-- Modelled from the spec: the compact statements call helper methods of the
test template `test_txn_model_template.py`, a file of this repository that is
not among the provided sources.  Per the spec (§4.5, "read (NoValue ⇒
not-found assertion, else value-equality assertion)"), expanding the
`transaction_read` helper yields a not-found assertion when the expected
value is the sentinel `NoValue` and a value-equality assertion otherwise.
Only this claim-relevant helper is expanded; every other statement expands to
itself. -/
def expand_stmt : Stmt → List Stmt
  | .transactionRead tid k v _ _ =>
    if v = "NoValue" then [.assertNotFoundResult tid k]
    else [.assertValueEquals tid k v]
  | s => [s]

/-- The eleven action kinds with a translation-table entry in `make_wt_action`
(testgen.py lines 172-201). -/
def known_action_names : List String :=
  ["StartTransaction", "TransactionWrite", "TransactionRead",
   "TransactionRemove", "PrepareTransaction", "CommitTransaction",
   "CommitPreparedTransaction", "AbortTransaction", "SetStableTimestamp",
   "SetOldestTimestamp", "RollbackToStable"]

/-! ### Claim C2: unknown action kinds -/

/-- Claim C2 (amended): for an action kind outside the eleven enumerated
kinds the translator does NOT fail — there is no `UnknownActionError`
anywhere in the source — instead it succeeds and emits a generic try/except
translation whose call line is the action name lowercased with `"mdbtxn"`
replaced by `"transaction_"` (testgen.py line 164). -/
theorem c2_unknown_action_generic (pre_state : Option (Nat × PState))
    (action_name : String) (action_args : List (String × String))
    (ps : Nat × PState) (hname : action_name ∉ known_action_names) :
    ∃ l, make_wt_action pre_state action_name action_args (some ps) = .ok l ∧
      Stmt.callLine (ActionCall.generic
        (py_replace (py_lower action_name) "mdbtxn" "transaction_")) ∈ l := by
  simp only [known_action_names, List.mem_cons, List.not_mem_nil,
    or_false] at hname
  push_neg at hname
  obtain ⟨h1, h2, h3, h4, h5, h6, h7, h8, h9, h10, h11⟩ := hname
  refine ⟨_, rfl, ?_⟩
  simp only [make_wt_action, action_call, compact_lines, base_lines,
    h1, h2, h3, h4, h5, h6, h7, h8, h9, h10, h11, if_neg, not_false_iff,
    ite_false, Option.getD, List.mem_append, List.mem_cons, List.cons_append,
    List.nil_append]
  tauto

/-- The post-state snapshot used in concrete evaluations: every transaction
status is `"Ok"`, `allDurableTs = 0`, stable and oldest timestamps unset. -/
def ps_ok : PState := ⟨fun _ => "Ok", 0, -1, -1⟩

/-- Claim C2 counterexample: on the out-of-table action kind `"FooAction"`
the translator raises nothing — in particular no `UnknownActionError` — and
returns the generic no-table translation calling `fooaction`. -/
theorem c2_counterexample :
    make_wt_action none "FooAction" [] (some (2, ps_ok)) =
      .ok [Stmt.resSretInit, Stmt.tryLine,
        Stmt.callLine (ActionCall.generic "fooaction"), Stmt.exceptLine,
        Stmt.resAssign, Stmt.assertResNone] := by
  rfl

/-- Witness for `c2_unknown_action_generic` at the concrete action kind
`"FooAction"`. -/
theorem c2_unknown_action_generic_witness :
    ∃ l, make_wt_action none "FooAction" [] (some (2, ps_ok)) = .ok l ∧
      Stmt.callLine (ActionCall.generic
        (py_replace (py_lower "FooAction") "mdbtxn" "transaction_")) ∈ l :=
  c2_unknown_action_generic none "FooAction" [] (2, ps_ok) (by decide)

/-! ### Claim C5: read translation -/

theorem ts_lines_cases (ps : PState) :
    ts_lines ps = [] ∨
      ∃ a st ol, ts_lines ps = [Stmt.checkTimestamps a st ol] := by
  by_cases hcond :
      (if ps.stableTs < 0 then (none : Option Int) else some ps.stableTs)
        ≠ none ∨
      ps.allDurableTs ≠ 0 ∨
      (if ps.oldestTs < 0 then (none : Option Int) else some ps.oldestTs)
        ≠ none
  · exact Or.inr ⟨_, _, _, if_pos hcond⟩
  · exact Or.inl (if_neg hcond)

theorem expand_ts_lines (ps : PState) (s : Stmt)
    (hs : s ∈ (ts_lines ps).flatMap expand_stmt) :
    ∃ a st ol, s = Stmt.checkTimestamps a st ol := by
  rcases ts_lines_cases ps with hcase | ⟨a, st, ol, hcase⟩
  · rw [hcase] at hs
    exact absurd hs (by simp)
  · rw [hcase] at hs
    simp only [List.flatMap_cons, List.flatMap_nil, List.append_nil,
      expand_stmt] at hs
    rcases List.mem_singleton.mp hs with rfl
    exact ⟨_, _, _, rfl⟩

/-- Claim C5: for every `TransactionRead` action, the translator emits the
compact `self.transaction_read(tid, k, v, ...)` call carrying the expected
value verbatim; expanding the template helper (spec-modelled `expand_stmt`),
the resulting statement block contains a not-found assertion and no
value-equality assertion exactly when the value parameter is the sentinel
`NoValue`, and a value-equality assertion (and no not-found assertion)
otherwise. -/
theorem c5_read_assertions (pre_state : Option (Nat × PState))
    (tid k v : String) (ps : Nat × PState) (stmts : List Stmt)
    (hok : make_wt_action pre_state "TransactionRead"
      [("tid", tid), ("k", k), ("v", v)] (some ps) = .ok stmts) :
    (v = "NoValue" →
        Stmt.assertNotFoundResult tid k ∈ stmts.flatMap expand_stmt ∧
        ∀ t2 k2 v2,
          Stmt.assertValueEquals t2 k2 v2 ∉ stmts.flatMap expand_stmt) ∧
      (v ≠ "NoValue" →
        Stmt.assertValueEquals tid k v ∈ stmts.flatMap expand_stmt ∧
        ∀ t2 k2,
          Stmt.assertNotFoundResult t2 k2 ∉ stmts.flatMap expand_stmt) := by
  have hval : make_wt_action pre_state "TransactionRead"
      [("tid", tid), ("k", k), ("v", v)] (some ps) =
      .ok ([Stmt.transactionRead tid k v
        (res_expected_of (ECode.status (ps.2.txnStatus tid)))
        (ECode.status (ps.2.txnStatus tid))] ++ ts_lines ps.2) := rfl
  rw [hval] at hok
  injection hok with hok2
  subst hok2
  rw [List.flatMap_append]
  constructor
  · intro hv
    subst hv
    constructor
    · simp [expand_stmt]
    · intro t2 k2 v2 hmem
      rcases List.mem_append.mp hmem with hmem1 | hmem2
      · simp [expand_stmt] at hmem1
      · obtain ⟨a, st, ol, heq⟩ := expand_ts_lines ps.2 _ hmem2
        exact Stmt.noConfusion heq
  · intro hv
    constructor
    · simp [expand_stmt, hv]
    · intro t2 k2 hmem
      rcases List.mem_append.mp hmem with hmem1 | hmem2
      · simp [expand_stmt, hv] at hmem1
      · obtain ⟨a, st, ol, heq⟩ := expand_ts_lines ps.2 _ hmem2
        exact Stmt.noConfusion heq

/-- Witness for `c5_read_assertions`, applied at a `NoValue` read and at a
read expecting the concrete value `"v1"`. -/
theorem c5_read_assertions_witness :
    ((("NoValue" : String) = "NoValue" →
        Stmt.assertNotFoundResult "t1" "k1" ∈
          ([Stmt.transactionRead "t1" "k1" "NoValue" none
            (ECode.status "Ok")] : List Stmt).flatMap expand_stmt ∧
        ∀ t2 k2 v2, Stmt.assertValueEquals t2 k2 v2 ∉
          ([Stmt.transactionRead "t1" "k1" "NoValue" none
            (ECode.status "Ok")] : List Stmt).flatMap expand_stmt) ∧
      (("NoValue" : String) ≠ "NoValue" →
        Stmt.assertValueEquals "t1" "k1" "NoValue" ∈
          ([Stmt.transactionRead "t1" "k1" "NoValue" none
            (ECode.status "Ok")] : List Stmt).flatMap expand_stmt ∧
        ∀ t2 k2, Stmt.assertNotFoundResult t2 k2 ∉
          ([Stmt.transactionRead "t1" "k1" "NoValue" none
            (ECode.status "Ok")] : List Stmt).flatMap expand_stmt)) ∧
    ((("v1" : String) = "NoValue" →
        Stmt.assertNotFoundResult "t1" "k1" ∈
          ([Stmt.transactionRead "t1" "k1" "v1" none
            (ECode.status "Ok")] : List Stmt).flatMap expand_stmt ∧
        ∀ t2 k2 v2, Stmt.assertValueEquals t2 k2 v2 ∉
          ([Stmt.transactionRead "t1" "k1" "v1" none
            (ECode.status "Ok")] : List Stmt).flatMap expand_stmt) ∧
      (("v1" : String) ≠ "NoValue" →
        Stmt.assertValueEquals "t1" "k1" "v1" ∈
          ([Stmt.transactionRead "t1" "k1" "v1" none
            (ECode.status "Ok")] : List Stmt).flatMap expand_stmt ∧
        ∀ t2 k2, Stmt.assertNotFoundResult t2 k2 ∉
          ([Stmt.transactionRead "t1" "k1" "v1" none
            (ECode.status "Ok")] : List Stmt).flatMap expand_stmt)) :=
  ⟨c5_read_assertions none "t1" "k1" "NoValue" (2, ps_ok) _ (by rfl),
   c5_read_assertions none "t1" "k1" "v1" (2, ps_ok) _ (by rfl)⟩

/-! ### The state graph and its loader -/

/-- Directed graph as networkx stores it: nodes in insertion order, edges in
insertion order, no duplicates. -/
structure Digraph where
  nodes : List Nat
  edges : List (Nat × Nat)
deriving DecidableEq

/-- `networkx` node creation: appends the node if absent. -/
def add_node (g : Digraph) (n : Nat) : Digraph :=
  if n ∈ g.nodes then g else ⟨g.nodes ++ [n], g.edges⟩

/-- `networkx.DiGraph.add_edge` (used at testgen.py line 65): both endpoints
are created on first sight and the edge is added if absent. -/
def add_edge (g : Digraph) (u v : Nat) : Digraph :=
  let g2 := add_node (add_node g u) v
  if (u, v) ∈ g2.edges then g2 else ⟨g2.nodes, g2.edges ++ [(u, v)]⟩

/-- One edge record of the TLC edge-list JSON: the source reads keys
`"from"` and `"to"` (testgen.py lines 64-66) and later `"act"` and `"params"`
(lines 529-536); the parameter payload is opaque here. -/
structure EdgeJson (π : Type) where
  efrom : Nat
  eto : Nat
  act : String
  params : π
deriving DecidableEq

/-- `parse_json_state_graph` (testgen.py lines 51-79) minus the file I/O:
builds the networkx graph and the `edge_actions` dict from the edge list and
the `node_map` dict from the state list.  Dicts are modelled by prepending,
so `List.lookup` (first match) realises the dict's last-write-wins overwrite
semantics.  The source performs no validation of any kind. -/
def parse_json_state_graph {π σ : Type} (edges : List (EdgeJson π))
    (states : List (Nat × σ)) :
    Digraph × List (Nat × σ) × List ((Nat × Nat) × EdgeJson π) :=
  (edges.foldl (fun g e => add_edge g e.efrom e.eto) ⟨[], []⟩,
   states.foldl (fun m s => (s.1, s.2) :: m) [],
   edges.foldl (fun m e => ((e.efrom, e.eto), e) :: m) [])

/-! ### Claim C6: root selection -/

/-- Modelled from the spec: `compute_path_coverings` takes
`list(nx.topological_sort(mst))[0]` as the root (testgen.py lines 92-93);
`nx.topological_sort` is external library code whose first yielded element is
the first node, in node order, with no inbound edge (the head of the first
topological generation).  Only that first element is consumed by the
source. -/
def zero_indegree (g : Digraph) : List Nat :=
  g.nodes.filter (fun v => g.edges.all (fun e => e.2 != v))

/-- The root selection of testgen.py line 93: `ordered_nodes[0]` — the head
of the topological order; `none` when no zero in-degree node exists (networkx
would raise there). -/
def root_node (g : Digraph) : Option Nat := (zero_indegree g).head?

theorem filter_head_unique (p : Nat → Bool) :
    ∀ (l : List Nat) (r : Nat), r ∈ l → p r = true →
      (∀ v ∈ l, p v = true → v = r) → (l.filter p).head? = some r := by
  intro l
  induction l with
  | nil =>
    intro r hr _ _
    exact absurd hr (List.not_mem_nil r)
  | cons a l ih =>
    intro r hr hp huniq
    by_cases hpa : p a = true
    · have ha : a = r := huniq a (List.mem_cons_self a l) hpa
      subst ha
      simp [List.filter_cons, hpa]
    · rcases List.mem_cons.mp hr with heq | hm
      · subst heq
        exact absurd hp hpa
      · rw [List.filter_cons]
        simp only [hpa, ite_false, Bool.false_eq_true, if_neg,
          not_false_iff]
        exact ih r hm hp
          (fun v hv hpv => huniq v (List.mem_cons_of_mem a hv) hpv)

/-- Claim C6 (amended): the root is simply the first node of the topological
order of the tree.  When the tree really is an arborescence — one node `r`
with no inbound edge, every other node with one — the selection does return
`r`, the unique node with no inbound tree edge.  But the source never
validates `r` against the graph's designated initial state (no such notion
exists in the code), and no `NoRootError` exists: an ambiguous input returns
its first zero-in-degree node silently (see `c6_counterexample`). -/
theorem c6_root_selection (g : Digraph) (r : Nat)
    (hr : r ∈ g.nodes)
    (hzero : ∀ e ∈ g.edges, e.2 ≠ r)
    (huniq : ∀ v ∈ g.nodes, (∀ e ∈ g.edges, e.2 ≠ v) → v = r) :
    root_node g = some r := by
  apply filter_head_unique _ g.nodes r hr
  · rw [List.all_eq_true]
    intro e he
    rw [bne_iff_ne]
    exact hzero e he
  · intro v hv hall
    apply huniq v hv
    intro e he
    rw [List.all_eq_true] at hall
    exact bne_iff_ne.mp (hall e he)

/-- A forest with the two zero-in-degree nodes 0 and 2: root selection is
ambiguous. -/
def forest2 : Digraph := ⟨[0, 1, 2, 3], [(0, 1), (2, 3)]⟩

/-- Claim C6 counterexample: on a tree-shaped input with two candidate roots
(0 and 2) the computation does not fail — the source contains no
`NoRootError` — it silently returns the first zero-in-degree node. -/
theorem c6_counterexample :
    root_node forest2 = some 0 ∧ 0 ∈ zero_indegree forest2 ∧
      2 ∈ zero_indegree forest2 ∧ (0 : Nat) ≠ 2 := by
  decide

/-- A three-node chain `0 → 1 → 2`, an arborescence rooted at 0. -/
def chain3 : Digraph := ⟨[0, 1, 2], [(0, 1), (1, 2)]⟩

/-- Witness for `c6_root_selection` on the chain `0 → 1 → 2`. -/
theorem c6_root_selection_witness : root_node chain3 = some 0 := by
  refine c6_root_selection chain3 0 (by decide) (by decide) ?_
  decide

/-! ### Claim C7: the loader validates nothing -/

theorem add_node_edges (g : Digraph) (n : Nat) :
    (add_node g n).edges = g.edges := by
  unfold add_node
  split <;> rfl

theorem add_node_mem (g : Digraph) (n : Nat) : n ∈ (add_node g n).nodes := by
  unfold add_node
  split
  · assumption
  · simp

theorem add_node_mem_mono (g : Digraph) (n m : Nat) (h : m ∈ g.nodes) :
    m ∈ (add_node g n).nodes := by
  unfold add_node
  split
  · exact h
  · simp only [List.mem_append]
    exact Or.inl h

theorem add_edge_mem (g : Digraph) (u v : Nat) :
    (u, v) ∈ (add_edge g u v).edges := by
  simp only [add_edge]
  split
  · assumption
  · simp

theorem add_edge_mem_mono (g : Digraph) (u v : Nat) (x : Nat × Nat)
    (hx : x ∈ g.edges) : x ∈ (add_edge g u v).edges := by
  simp only [add_edge]
  have h2 : (add_node (add_node g u) v).edges = g.edges := by
    rw [add_node_edges, add_node_edges]
  split
  · rw [h2]
    exact hx
  · simp only [List.mem_append]
    exact Or.inl (h2 ▸ hx)

theorem add_edge_nodes_mem (g : Digraph) (u v : Nat) :
    u ∈ (add_edge g u v).nodes ∧ v ∈ (add_edge g u v).nodes := by
  have hu : u ∈ (add_node (add_node g u) v).nodes :=
    add_node_mem_mono _ v u (add_node_mem g u)
  have hv : v ∈ (add_node (add_node g u) v).nodes := add_node_mem _ v
  simp only [add_edge]
  split
  · exact ⟨hu, hv⟩
  · exact ⟨hu, hv⟩

theorem add_edge_nodes_mono (g : Digraph) (u v m : Nat) (h : m ∈ g.nodes) :
    m ∈ (add_edge g u v).nodes := by
  have h2 : m ∈ (add_node (add_node g u) v).nodes :=
    add_node_mem_mono _ v m (add_node_mem_mono _ u m h)
  simp only [add_edge]
  split
  · exact h2
  · exact h2

theorem foldl_add_edge_pres {π : Type} :
    ∀ (edges : List (EdgeJson π)) (g : Digraph),
      (∀ x ∈ g.edges, x ∈
        (edges.foldl (fun g2 e2 => add_edge g2 e2.efrom e2.eto) g).edges) ∧
      (∀ n ∈ g.nodes, n ∈
        (edges.foldl (fun g2 e2 => add_edge g2 e2.efrom e2.eto) g).nodes) := by
  intro edges
  induction edges with
  | nil => exact fun g => ⟨fun x hx => hx, fun n hn => hn⟩
  | cons a l ih =>
    intro g
    rw [List.foldl_cons]
    constructor
    · intro x hx
      exact (ih (add_edge g a.efrom a.eto)).1 x
        (add_edge_mem_mono g a.efrom a.eto x hx)
    · intro n hn
      exact (ih (add_edge g a.efrom a.eto)).2 n
        (add_edge_nodes_mono g a.efrom a.eto n hn)

theorem foldl_add_edge_mem {π : Type} :
    ∀ (edges : List (EdgeJson π)) (g : Digraph) (e : EdgeJson π),
      e ∈ edges →
      (e.efrom, e.eto) ∈
          (edges.foldl (fun g2 e2 => add_edge g2 e2.efrom e2.eto) g).edges ∧
        e.efrom ∈
          (edges.foldl (fun g2 e2 => add_edge g2 e2.efrom e2.eto) g).nodes ∧
        e.eto ∈
          (edges.foldl (fun g2 e2 => add_edge g2 e2.efrom e2.eto) g).nodes := by
  intro edges
  induction edges with
  | nil =>
    intro g e he
    exact absurd he (List.not_mem_nil e)
  | cons a l ih =>
    intro g e he
    rw [List.foldl_cons]
    rcases List.mem_cons.mp he with heq | hm
    · subst heq
      refine ⟨?_, ?_, ?_⟩
      · exact (foldl_add_edge_pres l (add_edge g e.efrom e.eto)).1 _
          (add_edge_mem g e.efrom e.eto)
      · exact (foldl_add_edge_pres l (add_edge g e.efrom e.eto)).2 _
          (add_edge_nodes_mem g e.efrom e.eto).1
      · exact (foldl_add_edge_pres l (add_edge g e.efrom e.eto)).2 _
          (add_edge_nodes_mem g e.efrom e.eto).2
    · exact ih (add_edge g a.efrom a.eto) e hm

/-- Claim C7 (amended): the loader validates nothing — no
`MalformedGraphError` exists in the source.  Every edge of the input is
unconditionally added to the graph, its endpoints being created as nodes
whether or not they have a state snapshot, and the snapshots' fields are
never inspected (the state list is stored verbatim). -/
theorem c7_loader_no_validation {π σ : Type} (edges : List (EdgeJson π))
    (states : List (Nat × σ)) (e : EdgeJson π) (he : e ∈ edges) :
    (e.efrom, e.eto) ∈ (parse_json_state_graph edges states).1.edges ∧
      e.efrom ∈ (parse_json_state_graph edges states).1.nodes ∧
      e.eto ∈ (parse_json_state_graph edges states).1.nodes :=
  foldl_add_edge_mem edges ⟨[], []⟩ e he

/-- An edge whose endpoint `2` has no state snapshot. -/
def edge_no_state : EdgeJson Unit := ⟨1, 2, "A", ()⟩

/-- Claim C7 counterexample: on an edge referencing node 2, with a state list
carrying no snapshot at all, the loader succeeds silently — the graph
contains the edge and both endpoints and the node map is empty; no
`MalformedGraphError` (which does not exist in the source) is raised. -/
theorem c7_counterexample :
    (parse_json_state_graph [edge_no_state] ([] : List (Nat × Unit))).1 =
        ⟨[1, 2], [(1, 2)]⟩ ∧
      (parse_json_state_graph [edge_no_state]
        ([] : List (Nat × Unit))).2.1 = [] := by
  constructor <;> rfl

/-- Witness for `c7_loader_no_validation` at the concrete malformed input. -/
theorem c7_loader_no_validation_witness :
    ((1 : Nat), (2 : Nat)) ∈ (parse_json_state_graph [edge_no_state]
        ([] : List (Nat × Unit))).1.edges ∧
      (1 : Nat) ∈ (parse_json_state_graph [edge_no_state]
        ([] : List (Nat × Unit))).1.nodes ∧
      (2 : Nat) ∈ (parse_json_state_graph [edge_no_state]
        ([] : List (Nat × Unit))).1.nodes :=
  c7_loader_no_validation [edge_no_state] [] edge_no_state (by decide)

/-! ### Claim C9: trace round-trip

Source: the `__main__` trace construction (testgen.py lines 512-539).  A
covering path is turned into its list of consecutive edges (lines 516-519,
equal to zipping the path with its tail) and each edge is looked up in
`edge_actions`; the trace entry stores `[1, node_map[act["from"]]]`, the
transition (`"context"`/`"name"`), and `[2, node_map[act["to"]]]`. -/

/-- The transition dict of testgen.py lines 533-536: `"context"` holds the
edge record's `"params"` and `"name"` its `"act"`. -/
structure Transition (π : Type) where
  name : String
  context : π
deriving DecidableEq

/-- One trace entry `[pre_state, transition, post_state]` (testgen.py lines
531-538); the pre- and post-states are the Python lists `[1, snapshot]` and
`[2, snapshot]`. -/
def TraceStep (σ π : Type) : Type := (Nat × σ) × Transition π × (Nat × σ)

/-- The per-edge body of the loop at testgen.py lines 523-538: looking up the
edge record (`KeyError` when a path edge is missing from `edge_actions`) and
the endpoint snapshots (`KeyError` when missing from `node_map`). -/
def build_trace_edges {σ π : Type} (node_map : List (Nat × σ))
    (edge_actions : List ((Nat × Nat) × EdgeJson π)) :
    List (Nat × Nat) → Except String (List (TraceStep σ π))
  | [] => .ok []
  | e :: rest =>
    match edge_actions.lookup e with
    | none => .error "KeyError: edge not in edge_actions"
    | some act =>
      match node_map.lookup act.efrom with
      | none => .error "KeyError: node not in node_map"
      | some preval =>
        match node_map.lookup act.eto with
        | none => .error "KeyError: node not in node_map"
        | some postval =>
          match build_trace_edges node_map edge_actions rest with
          | .ok tail =>
            .ok (((1, preval), ⟨act.act, act.params⟩, (2, postval)) :: tail)
          | .error err => .error err

/-- Trace construction for one covering path (testgen.py lines 512-539): the
edge list of lines 516-519 is `cpath.zip cpath.tail`. -/
def build_trace {σ π : Type} (node_map : List (Nat × σ))
    (edge_actions : List ((Nat × Nat) × EdgeJson π)) (cpath : List Nat) :
    Except String (List (TraceStep σ π)) :=
  build_trace_edges node_map edge_actions (cpath.zip cpath.tail)

/-- Re-extraction of the node sequence from a trace: the snapshot of the
first pre-state followed by the snapshots of all post-states.  The trace
stores only the snapshots `node_map[fp]`, never the fingerprints, so the
extraction lives in snapshot space. -/
def extract_states {σ π : Type} (tr : List (TraceStep σ π)) : List σ :=
  match tr with
  | [] => []
  | t :: _ => t.1.2 :: tr.map (fun x => x.2.2.2)

theorem build_trace_edges_cons {σ π : Type} (nm : List (Nat × σ))
    (ea : List ((Nat × Nat) × EdgeJson π)) (e : Nat × Nat)
    (rest : List (Nat × Nat)) (a : EdgeJson π) (ha : ea.lookup e = some a)
    (pv qv : σ) (hp : nm.lookup a.efrom = some pv)
    (hq : nm.lookup a.eto = some qv) (tr : List (TraceStep σ π))
    (htr : build_trace_edges nm ea rest = .ok tr) :
    build_trace_edges nm ea (e :: rest) =
      .ok (((1, pv), ⟨a.act, a.params⟩, (2, qv)) :: tr) := by
  simp only [build_trace_edges, ha, hp, hq, htr]

theorem build_trace_cons_ok {σ π : Type} (nm : List (Nat × σ))
    (ea : List ((Nat × Nat) × EdgeJson π)) (f : Nat → σ) :
    ∀ (rest : List Nat) (x y : Nat),
      (∀ uv ∈ (x :: y :: rest).zip (y :: rest), ∃ a, ea.lookup uv = some a ∧
        a.efrom = uv.1 ∧ a.eto = uv.2) →
      (∀ n ∈ x :: y :: rest, nm.lookup n = some (f n)) →
      ∃ tr, build_trace nm ea (x :: y :: rest) = .ok tr ∧ tr ≠ [] ∧
        extract_states tr = f x :: f y :: rest.map f := by
  intro rest
  induction rest with
  | nil =>
    intro x y hedges hnodes
    obtain ⟨a, ha, hfrom, hto⟩ := hedges (x, y) (by simp)
    have hnx : nm.lookup x = some (f x) := hnodes x (by simp)
    have hny : nm.lookup y = some (f y) := hnodes y (by simp)
    refine ⟨[((1, f x), ⟨a.act, a.params⟩, (2, f y))], ?_, by simp, rfl⟩
    unfold build_trace
    simp only [List.tail_cons, List.zip_cons_cons, List.zip_nil_right]
    exact build_trace_edges_cons nm ea (x, y) [] a ha (f x) (f y)
      (by rw [hfrom]; exact hnx) (by rw [hto]; exact hny) [] rfl
  | cons z rest2 ih =>
    intro x y hedges hnodes
    obtain ⟨a, ha, hfrom, hto⟩ := hedges (x, y) (by simp)
    have hnx : nm.lookup x = some (f x) := hnodes x (by simp)
    have hny : nm.lookup y = some (f y) := hnodes y (by simp)
    obtain ⟨tr2, htr2, htr2ne, hext⟩ := ih y z
      (fun uv huv => hedges uv (by
        simp only [List.zip_cons_cons, List.mem_cons]
        simp only [List.zip_cons_cons, List.mem_cons] at huv
        tauto))
      (fun n hn => hnodes n (by
        simp only [List.mem_cons]
        simp only [List.mem_cons] at hn
        tauto))
    refine ⟨((1, f x), ⟨a.act, a.params⟩, (2, f y)) :: tr2, ?_, by simp, ?_⟩
    · unfold build_trace
      simp only [List.tail_cons, List.zip_cons_cons]
      unfold build_trace at htr2
      simp only [List.tail_cons, List.zip_cons_cons] at htr2
      exact build_trace_edges_cons nm ea (x, y) _ a ha (f x) (f y)
        (by rw [hfrom]; exact hnx) (by rw [hto]; exact hny) tr2 htr2
    · match tr2, htr2ne with
      | t0 :: tr3, _ =>
        simp only [extract_states, List.map_cons] at hext ⊢
        rcases List.cons.inj hext with ⟨hh, htl⟩
        rw [htl]

/-- Claim C9 (amended): for a path of length at least two whose consecutive
pairs all have consistent entries in the edge-action table (as the entries
built by the loader always are) and whose nodes all have snapshots, building
the trace succeeds and re-extracting the state sequence yields exactly the
image of the path under the node-state map — the path itself is recovered
whenever that map is injective on its nodes.  A single-node path produces an
empty trace from which the path cannot be re-extracted
(`c9_counterexample`). -/
theorem c9_roundtrip {σ π : Type} (nm : List (Nat × σ))
    (ea : List ((Nat × Nat) × EdgeJson π)) (cpath : List Nat) (f : Nat → σ)
    (hlen : 2 ≤ cpath.length)
    (hedges : ∀ uv ∈ cpath.zip cpath.tail, ∃ a, ea.lookup uv = some a ∧
      a.efrom = uv.1 ∧ a.eto = uv.2)
    (hnodes : ∀ n ∈ cpath, nm.lookup n = some (f n)) :
    ∃ tr, build_trace nm ea cpath = .ok tr ∧
      extract_states tr = cpath.map f := by
  cases cpath with
  | nil => simp at hlen
  | cons x c1 =>
    cases c1 with
    | nil => simp at hlen
    | cons y rest =>
      obtain ⟨tr, htr, _, hext⟩ :=
        build_trace_cons_ok nm ea f rest x y hedges hnodes
      exact ⟨tr, htr, by simpa using hext⟩

/-- Claim C9 counterexample: the single-node path `[5]` has no consecutive
pairs, so its trace is empty, and the node sequence extracted from the empty
trace is empty — it cannot reproduce the one-node path (the lengths already
differ). -/
theorem c9_counterexample :
    build_trace ([(5, 0)] : List (Nat × Nat))
        ([] : List ((Nat × Nat) × EdgeJson Unit)) [5] = .ok [] ∧
      extract_states ([] : List (TraceStep Nat Unit)) ≠
        ([5] : List Nat).map (fun _ => (0 : Nat)) := by
  constructor
  · rfl
  · decide

/-- Node map and edge-action table for the two-node path `[3, 4]`. -/
def nm_w : List (Nat × Nat) := [(3, 30), (4, 40)]

/-- Edge-action table holding the one edge `3 → 4`. -/
def ea_w : List ((Nat × Nat) × EdgeJson Unit) := [((3, 4), ⟨3, 4, "A", ()⟩)]

/-- Witness for `c9_roundtrip` on the two-node path `[3, 4]`. -/
theorem c9_roundtrip_witness :
    ∃ tr, build_trace nm_w ea_w [3, 4] = .ok tr ∧
      extract_states tr = [3, 4].map (fun n => 10 * n) := by
  refine c9_roundtrip nm_w ea_w [3, 4] (fun n => 10 * n) (by decide) ?_ ?_
  · intro uv huv
    have huv2 : uv = (3, 4) := by
      simpa using huv
    subst huv2
    exact ⟨⟨3, 4, "A", ()⟩, by decide, rfl, rfl⟩
  · intro n hn
    have hn2 : n = 3 ∨ n = 4 := by
      simpa using hn
    rcases hn2 with rfl | rfl <;> rfl

/-! ### Claim C10: per-trace truncation in the test emitter -/

/-- The transition entry of a loaded trace action (testgen.py lines 289-291):
`"context"` may be absent, in which case the action arguments default to
`[]`. -/
structure TraceTransition where
  name : String
  context : Option (List (String × String))

/-- One element of `trace["action"]` as consumed by
`gen_wt_test_from_traces`: pre-state, transition, post-state (lines
285-292). -/
def TraceAction : Type := (Nat × PState) × TraceTransition × (Nat × PState)

/-- The per-action translation of testgen.py lines 285-300: each action is
passed to `make_wt_action`; a raised exception propagates. -/
def translate_actions : List TraceAction → Except String (List (List Stmt))
  | [] => .ok []
  | a :: rest =>
    match make_wt_action (some a.1) a.2.1.name (a.2.1.context.getD [])
        (some a.2.2) with
    | .ok stmts =>
      match translate_actions rest with
      | .ok tail => .ok (stmts :: tail)
      | .error e => .error e
    | .error e => .error e

/-- The action translation of `gen_wt_test_from_traces` (testgen.py lines
264-300): only the slice `trace["action"][:max_len]` is translated; the
emitted statement blocks (and the later per-action labels, which index
`trace["action"][i]` for `i` below the same bound) come from this prefix
only. -/
def gen_wt_actions (max_len : Nat) (acts : List TraceAction) :
    Except String (List (List Stmt)) :=
  translate_actions (acts.take max_len)

/-- The `max_len` default of `gen_wt_test_from_traces` (testgen.py line
264). -/
def gen_wt_default_max_len : Nat := 1000

theorem translate_actions_length :
    ∀ (acts : List TraceAction) (l : List (List Stmt)),
      translate_actions acts = .ok l → l.length = acts.length := by
  intro acts
  induction acts with
  | nil =>
    intro l hl
    rw [translate_actions] at hl
    cases hl
    rfl
  | cons a rest ih =>
    intro l hl
    rw [translate_actions] at hl
    cases hma : make_wt_action (some a.1) a.2.1.name (a.2.1.context.getD [])
        (some a.2.2) with
    | error e =>
      rw [hma] at hl
      cases hl
    | ok stmts =>
      rw [hma] at hl
      cases hrec : translate_actions rest with
      | error e =>
        rw [hrec] at hl
        cases hl
      | ok tail =>
        rw [hrec] at hl
        cases hl
        simp [ih tail hrec]

/-- Claim C10: the test emitter translates only the first `max_len` actions
(default 1000) of a trace and silently drops the rest: translating a trace
equals translating its `max_len`-prefix, and the number of emitted statement
blocks is `min max_len (length of the trace)`. -/
theorem c10_truncation (max_len : Nat) (acts : List TraceAction) :
    gen_wt_actions max_len acts = gen_wt_actions max_len (acts.take max_len) ∧
      ∀ l, gen_wt_actions max_len acts = .ok l →
        l.length = min max_len acts.length := by
  constructor
  · unfold gen_wt_actions
    rw [List.take_take, min_self]
  · intro l hl
    have hlen := translate_actions_length _ l hl
    rw [List.length_take] at hlen
    simpa using hlen

/-- A `RollbackToStable` trace action over the default snapshot. -/
def rtsAction : TraceAction := ((1, ps_ok), ⟨"RollbackToStable", none⟩, (2, ps_ok))

/-- Witness for `c10_truncation`: a two-action trace with `max_len = 1`
yields exactly one statement block. -/
theorem c10_truncation_witness :
    ([[Stmt.resSretInit, Stmt.tryLine,
        Stmt.callLine ActionCall.rollbackToStableCall, Stmt.exceptLine,
        Stmt.resAssign, Stmt.assertResNone]] : List (List Stmt)).length =
      min 1 ([rtsAction, rtsAction] : List TraceAction).length :=
  (c10_truncation 1 [rtsAction, rtsAction]).2
    [[Stmt.resSretInit, Stmt.tryLine,
      Stmt.callLine ActionCall.rollbackToStableCall, Stmt.exceptLine,
      Stmt.resAssign, Stmt.assertResNone]] (by rfl)

end Testgen
